import Mathlib

set_option maxRecDepth 100000

/-!
# Verification of the barkbase maintenance-script rewrite engine

Shallow embedding of the text-rewriting logic of the repository's
maintenance scripts (`docs/Utilities/fix_theme_line_by_line.py`,
`docs/Utilities/update_dark_mode.py`, `docs/Utilities/fix_multiline_inputs.py`,
`fix-authorizers.py`) together with proofs and refutations of the
specification's claims about them.

Text is modelled as `List Char`.  The scripts' regular expressions all fall
into a small fragment (literal cores with one optional alternation group,
`\b` word-boundary anchors at either end, and an optional negative lookahead
of the form `(?! lit)` or `(?!\s+lit)`); that fragment is embedded by the
`Pat` structure and a direct matcher.  Python's `re.search`, `re.sub`,
`re.subn`, `re.findall`, `str.replace(_, _, 1)` and the `in` substring test
are embedded by `findMatch`, `subText`, `subn`, `findallCount`,
`replaceFirstSub` and `containsSub`.
-/

namespace Rewrite

/-- Python `\w` on the ASCII inputs used by the scripts: letters, digits, `_`. -/
def isWordChar (c : Char) : Bool := c.isAlphanum || c == '_'

/-- Python `\s` on ASCII: space, tab, newline, carriage return, vertical tab, form feed. -/
def isSpaceChar (c : Char) : Bool :=
  c == ' ' || c == '\t' || c == '\n' || c == '\r' || c == '\x0b' || c == '\x0c'

/-- Whether the character at index `i` of `t` is a word character
(out of range counts as a non-word character, as in Python). -/
def wAt (t : List Char) (i : Nat) : Bool :=
  match t.get? i with
  | some c => isWordChar c
  | none => false

/-- Python `\b`: a word boundary holds at position `i` (between `t[i-1]` and `t[i]`). -/
def boundaryAt (t : List Char) (i : Nat) : Bool :=
  if i = 0 then wAt t 0 else wAt t (i - 1) != wAt t i

/-- The negative-lookahead forms appearing in the scripts' patterns:
no lookahead, a literal lookahead such as `(?! dark:)`, or a
whitespace-run-then-literal lookahead such as `(?!\s+dark:)`. -/
inductive Look where
  | non : Look
  | lit : List Char → Look
  | wsLit : List Char → Look

/-- After at least one whitespace character has been consumed: does
`\s*` followed by the literal `s` match a prefix of the remaining text? -/
def wsLitAux (s : List Char) : List Char → Bool
  | [] => s.isPrefixOf []
  | c :: cs => s.isPrefixOf (c :: cs) || (isSpaceChar c && wsLitAux s cs)

/-- Does the lookahead's inner pattern match at the start of `r`?
(The lookahead in the rule succeeds when this is `false`.) -/
def laMatch : Look → List Char → Bool
  | Look.non, _ => false
  | Look.lit s, r => s.isPrefixOf r
  | Look.wsLit s, r =>
    match r with
    | [] => false
    | c :: cs => isSpaceChar c && wsLitAux s cs

/-- The regex fragment used by the scripts' rule tables: the matched text is
`pre ++ a ++ post` for the first alternative `a` in `alts` that fits, with
optional `\b` anchors at both ends and an optional negative lookahead after
the match.  A plain literal pattern has `alts = [[]]`. -/
structure Pat where
  pre : List Char
  alts : List (List Char)
  post : List Char
  bStart : Bool
  bEnd : Bool
  look : Look

/-- Try the alternatives in order (Python's alternation preference) at
absolute position `i` of `t`; return the length of the matched text. -/
def altLenAt (t : List Char) (i : Nat) (p : Pat) : List (List Char) → Option Nat
  | [] => none
  | a :: rest =>
    let m := p.pre ++ a ++ p.post
    if m.isPrefixOf (t.drop i)
        && (!p.bEnd || boundaryAt t (i + m.length))
        && !(laMatch p.look (t.drop (i + m.length)))
    then some m.length
    else altLenAt t i p rest

/-- Does `p` match at absolute position `i` of `t`?  Returns the match length. -/
def patAt (t : List Char) (i : Nat) (p : Pat) : Option Nat :=
  if p.bStart && !(boundaryAt t i) then none
  else altLenAt t i p p.alts

/-- Scan positions `i, i+1, ...` (fuel-bounded) for the leftmost match. -/
def findFrom (p : Pat) (t : List Char) (i : Nat) : Nat → Option (Nat × Nat)
  | 0 => none
  | fuel + 1 =>
    match patAt t i p with
    | some len => some (i, len)
    | none => findFrom p t (i + 1) fuel

/-- Python `re.search`: leftmost match of `p` in `t` as (start, length). -/
def findMatch (p : Pat) (t : List Char) : Option (Nat × Nat) :=
  findFrom p t 0 (t.length + 1)

/-- Python's `in` substring test (`needle in hay`). -/
def containsSub (pat : List Char) : List Char → Bool
  | [] => pat.isEmpty
  | c :: t => pat.isPrefixOf (c :: t) || containsSub pat t

/-- Python `hay.replace(pat, new, 1)`: replace the first plain-substring
occurrence of `pat` (not a regex match) by `new`; unchanged if absent. -/
def replaceFirstSub (pat new : List Char) : List Char → List Char
  | [] => if pat.isEmpty then new else []
  | c :: t =>
    if pat.isPrefixOf (c :: t) then new ++ (c :: t).drop pat.length
    else c :: replaceFirstSub pat new t

/-- Worker for `re.subn`: scan `t` from absolute index `i`, emitting either a
replacement (advancing past the whole match, so inserted text is never
rescanned) or the current character.  Fuel-bounded; `t.length + 1` fuel
suffices because every pattern in the tables matches at least one character. -/
def subnGo (p : Pat) (r : List Char) (t : List Char) (i : Nat) : Nat → (List Char × Nat)
  | 0 => (t.drop i, 0)
  | fuel + 1 =>
    match patAt t i p with
    | some len =>
      let x := subnGo p r t (i + len) fuel
      (r ++ x.1, x.2 + 1)
    | none =>
      match t.get? i with
      | some c =>
        let x := subnGo p r t (i + 1) fuel
        (c :: x.1, x.2)
      | none => ([], 0)

/-- Python `re.subn(p, r, t)`: globally substituted text and replacement count. -/
def subn (p : Pat) (r : List Char) (t : List Char) : List Char × Nat :=
  subnGo p r t 0 (t.length + 1)

/-- Python `re.sub(p, r, t)`. -/
def subText (p : Pat) (r : List Char) (t : List Char) : List Char :=
  (subn p r t).1

/-- Worker for `re.findall` (match count only): same scan as `subnGo`. -/
def findallGo (p : Pat) (t : List Char) (i : Nat) : Nat → Nat
  | 0 => 0
  | fuel + 1 =>
    match patAt t i p with
    | some len => findallGo p t (i + len) fuel + 1
    | none =>
      match t.get? i with
      | some _ => findallGo p t (i + 1) fuel
      | none => 0

/-- `len(re.findall(p, t))`: the number of non-overlapping matches of `p` in `t`. -/
def findallCount (p : Pat) (t : List Char) : Nat :=
  findallGo p t 0 (t.length + 1)

/-- Python `splitlines(keepends=True)` / `readlines` on `'\n'`-terminated text. -/
def splitKeepGo (acc : List Char) : List Char → List (List Char)
  | [] => if acc.isEmpty then [] else [acc.reverse]
  | c :: t =>
    if c = '\n' then (acc.reverse ++ ['\n']) :: splitKeepGo [] t
    else splitKeepGo (c :: acc) t

/-- Split text into lines, keeping the terminators (as `f.readlines()` does). -/
def splitKeepends (t : List Char) : List (List Char) :=
  splitKeepGo [] t

/-- Shorthand: a string literal as a character list. -/
def cs (s : String) : List Char := s.toList

/-- The number of positions of `t` (including the end position) at which `pat`
occurs as a substring; "the text contains two entries of `pat`" means this
count is at least 2. -/
def occCount (pat : List Char) : List Char → Nat
  | [] => if pat.isEmpty then 1 else 0
  | c :: t => (if pat.isPrefixOf (c :: t) then 1 else 0) + occCount pat t

/-- The number of occurrences of `pat` that *start inside `a`* in the text
`a ++ b` (they may extend into `b`). -/
def occIn (pat : List Char) : List Char → List Char → Nat
  | [], _ => 0
  | c :: a, b => (if pat.isPrefixOf (c :: (a ++ b)) then 1 else 0) + occIn pat a b

/-- `\b lit \b` with no lookahead (the `THEME_PAIRS` shape). -/
def mkLit (s : String) : Pat :=
  ⟨cs s, [[]], [], true, true, Look.non⟩

/-- `\b lit \b (?! la)` (the `update_dark_mode.REPLACEMENTS` shape). -/
def mkLitLA (s la : String) : Pat :=
  ⟨cs s, [[]], [], true, true, Look.lit (cs la)⟩

/-- `\b lit \b (?!\s+ la)` (the `fix_all_dark_mode` / `fix_colored_backgrounds` shape). -/
def mkLitWsLA (s la : String) : Pat :=
  ⟨cs s, [[]], [], true, true, Look.wsLit (cs la)⟩

/-- `\b lit` with no trailing `\b` (the hardcoded-color shape, e.g. `\bbg-\[#FFFFFF\]`). -/
def mkLitNoEnd (s : String) : Pat :=
  ⟨cs s, [[]], [], true, false, Look.non⟩

/-- `\b pre (a1|a2|...) post \b` (the color-alternation shape). -/
def mkAlt (pre : String) (alts : List String) (post : String) : Pat :=
  ⟨cs pre, alts.map (fun a => cs a), cs post, true, true, Look.non⟩

end Rewrite

namespace FixThemeLineByLine

open Rewrite

/-- One `(light_pattern, dark_class)` entry of `THEME_PAIRS`. -/
structure ThemePair where
  pat : Pat
  dark : List Char

/-- The color alternation of `fix_theme_line_by_line.py` lines 62-63. -/
def colorAlts : List String :=
  ["slate", "zinc", "neutral", "stone", "red", "orange", "amber", "yellow",
   "lime", "green", "emerald", "teal", "cyan", "sky", "blue", "indigo",
   "violet", "purple", "fuchsia", "pink", "rose"]

/-- `THEME_PAIRS` from `docs/Utilities/fix_theme_line_by_line.py` lines 10-64. -/
def THEME_PAIRS : List ThemePair := [
  ⟨mkLit "bg-white", cs "dark:bg-surface-primary"⟩,
  ⟨mkLit "bg-gray-50", cs "dark:bg-surface-secondary"⟩,
  ⟨mkLit "bg-gray-100", cs "dark:bg-surface-secondary"⟩,
  ⟨mkLit "bg-gray-200", cs "dark:bg-surface-border"⟩,
  ⟨mkLit "bg-gray-300", cs "dark:bg-surface-border"⟩,
  ⟨mkLit "bg-gray-400", cs "dark:bg-surface-secondary"⟩,
  ⟨mkLit "bg-gray-500", cs "dark:bg-surface-secondary"⟩,
  ⟨mkLit "bg-gray-600", cs "dark:bg-surface-border"⟩,
  ⟨mkLit "border-gray-200", cs "dark:border-surface-border"⟩,
  ⟨mkLit "border-gray-300", cs "dark:border-surface-border"⟩,
  ⟨mkLit "border-gray-400", cs "dark:border-surface-border"⟩,
  ⟨mkLit "text-gray-900", cs "dark:text-text-primary"⟩,
  ⟨mkLit "text-gray-800", cs "dark:text-text-primary"⟩,
  ⟨mkLit "text-gray-700", cs "dark:text-text-primary"⟩,
  ⟨mkLit "text-gray-600", cs "dark:text-text-secondary"⟩,
  ⟨mkLit "text-gray-500", cs "dark:text-text-secondary"⟩,
  ⟨mkLit "text-gray-400", cs "dark:text-text-tertiary"⟩,
  ⟨mkLit "text-gray-300", cs "dark:text-text-tertiary"⟩,
  ⟨mkLit "divide-gray-100", cs "dark:divide-surface-border"⟩,
  ⟨mkLit "divide-gray-200", cs "dark:divide-surface-border"⟩,
  ⟨mkLit "hover:bg-gray-50", cs "dark:hover:bg-surface-secondary"⟩,
  ⟨mkLit "hover:bg-gray-100", cs "dark:hover:bg-surface-secondary"⟩,
  ⟨mkLit "hover:bg-white", cs "dark:hover:bg-surface-primary"⟩,
  ⟨mkLit "hover:text-gray-900", cs "dark:hover:text-text-primary"⟩,
  ⟨mkLit "hover:text-gray-200", cs "dark:hover:text-text-tertiary"⟩,
  ⟨mkLit "focus:bg-gray-50", cs "dark:focus:bg-surface-secondary"⟩,
  ⟨mkLit "focus:border-gray-300", cs "dark:focus:border-surface-border"⟩,
  ⟨mkLit "ring-gray-200", cs "dark:ring-surface-border"⟩,
  ⟨mkLit "ring-gray-300", cs "dark:ring-surface-border"⟩,
  ⟨mkLit "placeholder:text-gray-600", cs "dark:placeholder:text-text-secondary"⟩,
  ⟨mkLit "placeholder:text-gray-500", cs "dark:placeholder:text-text-secondary"⟩,
  ⟨mkLit "placeholder:text-gray-400", cs "dark:placeholder:text-text-tertiary"⟩,
  ⟨mkLit "placeholder-gray-500", cs "dark:placeholder-text-text-secondary"⟩,
  ⟨mkLit "placeholder-gray-400", cs "dark:placeholder-text-text-tertiary"⟩,
  ⟨mkAlt "bg-" colorAlts "-50", cs "dark:bg-surface-primary"⟩,
  ⟨mkAlt "bg-" colorAlts "-100", cs "dark:bg-surface-secondary"⟩]

/-- The body of the `for light_pattern, dark_class in THEME_PAIRS` loop of
`fix_line` (lines 71-86): if the light pattern matches the line and the dark
class is not already a substring of the line, replace the first
plain-substring occurrence of the matched text by itself followed by a space
and the dark class (`line.replace(light_class, f"..{light}.. ..{dark}..", 1)`). -/
def fix_line_step (st : List Char × Bool) (r : ThemePair) : List Char × Bool :=
  let line := st.1
  match findMatch r.pat line with
  | none => st
  | some m =>
    if containsSub r.dark line then st
    else
      let light := (line.drop m.1).take m.2
      (replaceFirstSub light (light ++ ' ' :: r.dark) line, true)

/-- `fix_line` of `fix_theme_line_by_line.py` (lines 66-88), parameterized by
the rule table: returns the rewritten line and the `changes_made` flag. -/
def fix_line (pairs : List ThemePair) (line : List Char) : List Char × Bool :=
  pairs.foldl fix_line_step (line, false)

/-- The pure core of `fix_file` (lines 90-110): rewrite every line with
`fix_line` and count how many *lines* changed (`len(line_changes)`). -/
def fix_file_lines (pairs : List ThemePair) (ls : List (List Char)) :
    List (List Char) × Nat :=
  let results := ls.map (fun l => fix_line pairs l)
  (results.map (fun r => r.1), (results.filter (fun r => r.2)).length)

end FixThemeLineByLine

namespace UpdateDarkMode

open Rewrite

/-- One `(pattern, replacement)` entry of `REPLACEMENTS`. -/
structure Rep where
  pat : Pat
  repl : List Char

/-- `REPLACEMENTS` from `docs/Utilities/update_dark_mode.py` lines 11-37. -/
def REPLACEMENTS : List Rep := [
  ⟨mkLitLA "bg-white" " dark:", cs "bg-white dark:bg-surface-primary"⟩,
  ⟨mkLitLA "bg-gray-50" " dark:", cs "bg-gray-50 dark:bg-surface-secondary"⟩,
  ⟨mkLitLA "bg-gray-100" " dark:", cs "bg-gray-100 dark:bg-surface-secondary"⟩,
  ⟨mkLitLA "bg-gray-200" " dark:", cs "bg-gray-200 dark:bg-surface-border"⟩,
  ⟨mkLitLA "text-gray-900" " dark:", cs "text-gray-900 dark:text-text-primary"⟩,
  ⟨mkLitLA "text-gray-800" " dark:", cs "text-gray-800 dark:text-text-primary"⟩,
  ⟨mkLitLA "text-gray-700" " dark:", cs "text-gray-700 dark:text-text-primary"⟩,
  ⟨mkLitLA "text-gray-600" " dark:", cs "text-gray-600 dark:text-text-secondary"⟩,
  ⟨mkLitLA "text-gray-500" " dark:", cs "text-gray-500 dark:text-text-secondary"⟩,
  ⟨mkLitLA "text-gray-400" " dark:", cs "text-gray-400 dark:text-text-tertiary"⟩,
  ⟨mkLitLA "border-gray-200" " dark:", cs "border-gray-200 dark:border-surface-border"⟩,
  ⟨mkLitLA "border-gray-300" " dark:", cs "border-gray-300 dark:border-surface-border"⟩,
  ⟨mkLitNoEnd "bg-[#F5F6FA]", cs "bg-background-primary"⟩,
  ⟨mkLitNoEnd "bg-[#FFFFFF]", cs "bg-white dark:bg-surface-primary"⟩,
  ⟨mkLitNoEnd "text-[#263238]", cs "text-gray-900 dark:text-text-primary"⟩,
  ⟨mkLitNoEnd "text-[#64748B]", cs "text-gray-600 dark:text-text-secondary"⟩,
  ⟨mkLitNoEnd "border-[#E0E0E0]", cs "border-gray-200 dark:border-surface-border"⟩,
  ⟨mkLitNoEnd "border-[#F5F6FA]", cs "border-gray-200 dark:border-surface-border"⟩]

/-- One iteration of the `for pattern, replacement in REPLACEMENTS` loop of
`update_file` (lines 73-79): substitute globally with `re.sub`; if the text
changed, add `len(re.findall(pattern, content))` (counted on the text
*before* this substitution) to the running count. -/
def update_step (st : List Char × Nat) (r : Rep) : List Char × Nat :=
  let newContent := subText r.pat r.repl st.1
  if newContent ≠ st.1 then (newContent, st.2 + findallCount r.pat st.1)
  else st

/-- The pure transformation core of `update_file` (lines 64-90): the rewritten
content and the total replacement count. -/
def update_content (rules : List Rep) (content : List Char) : List Char × Nat :=
  rules.foldl update_step (content, 0)

/-- An I/O failure (the payload is irrelevant to the control flow). -/
structure IOErr where
  code : Nat

/-- `update_file` of `update_dark_mode.py` (lines 64-90) with its I/O made
explicit: `readRes` is the outcome of the read, `writeRes` the outcome of the
(atomic) write.  The `try/except` wrapping the whole body catches any
exception and returns 0, and the write only happens when the content changed.
Result: the reported replacement count and whether the file was written. -/
def update_file (readRes : Except IOErr (List Char)) (writeRes : Except IOErr Unit) :
    Nat × Bool :=
  match readRes with
  | Except.error _ => (0, false)
  | Except.ok content =>
    let r := update_content REPLACEMENTS content
    if r.1 ≠ content then
      match writeRes with
      | Except.ok _ => (r.2, true)
      | Except.error _ => (0, false)
    else (0, false)

/-- The per-file loop of `main` (lines 99-110): every file is processed by
`update_file` independently; since `update_file` catches its own exceptions,
the loop is a total map and never aborts early. -/
def processFiles (files : List (Except IOErr (List Char) × Except IOErr Unit)) :
    List (Nat × Bool) :=
  files.map (fun f => update_file f.1 f.2)

end UpdateDarkMode

namespace FixMultilineInputs

open Rewrite

/-- First index `q ≥ j` of `t` holding a double quote. -/
def findQuote (t : List Char) (j : Nat) : Nat → Option Nat
  | 0 => none
  | fuel + 1 =>
    match t.get? j with
    | none => none
    | some c => if c = '"' then some j else findQuote t (j + 1) fuel

/-- The className body `(?:(?!bg-)[^"])*border[^"]*?` followed by the closing
`"`, starting at index `j` (just after the opening quote): scan for a `border`
whose preceding characters are all quote-free and never start `bg-`; on
success return the index just past the closing quote. -/
def bodyGo (t : List Char) (j : Nat) : Nat → Option Nat
  | 0 => none
  | fuel + 1 =>
    match t.get? j with
    | none => none
    | some c =>
      if c = '"' then none
      else if (cs "border").isPrefixOf (t.drop j) then
        match findQuote t (j + 6) (t.length + 1) with
        | some q => some (q + 1)
        | none => none
      else if (cs "bg-").isPrefixOf (t.drop j) then none
      else bodyGo t (j + 1) fuel

/-- The lazy `[^>]*?` followed by `className="` and the body: starting at `j`,
find the earliest `className="` reachable without crossing `>` whose body
matches (Python's lazy-star preference); return the index past the closing
quote. -/
def scanCN (t : List Char) (j : Nat) : Nat → Option Nat
  | 0 => none
  | fuel + 1 =>
    match (if (cs "className=\"").isPrefixOf (t.drop j)
           then bodyGo t (j + 11) (t.length + 1) else none) with
    | some e => some e
    | none =>
      match t.get? j with
      | some c => if c = '>' then none else scanCN t (j + 1) fuel
      | none => none

/-- The pattern `<{tag}\b[^>]*?className="((?:(?!bg-)[^"])*border[^"]*?)(")`
of `fix_file_content` (line 16), compiled with `re.DOTALL` so every character
class also matches newlines: match length at absolute position `i`. -/
def tagMatchLen (tag : List Char) (t : List Char) (i : Nat) : Option Nat :=
  if ('<' :: tag).isPrefixOf (t.drop i) && boundaryAt t (i + tag.length + 1) then
    match scanCN t (i + tag.length + 1) (t.length + 1) with
    | some e => some (e - i)
    | none => none
  else none

/-- Count the non-overlapping left-to-right matches of the tag pattern. -/
def countTagGo (tag : List Char) (t : List Char) (i : Nat) : Nat → Nat
  | 0 => 0
  | fuel + 1 =>
    match tagMatchLen tag t i with
    | some len => countTagGo tag t (i + len) fuel + 1
    | none =>
      match t.get? i with
      | some _ => countTagGo tag t (i + 1) fuel
      | none => 0

/-- The number of matches of the `fix_file_content` pattern for `tag` in `t`. -/
def countTagMatches (tag : List Char) (t : List Char) : Nat :=
  countTagGo tag t 0 (t.length + 1)

end FixMultilineInputs

namespace FixAuthorizers

open Rewrite

/-- Python `str.rstrip()`. -/
def rstripL (l : List Char) : List Char := (l.reverse.dropWhile isSpaceChar).reverse

/-- Python `str.lstrip()`. -/
def lstripL (l : List Char) : List Char := l.dropWhile isSpaceChar

/-- Python `str.strip()`. -/
def stripL (l : List Char) : List Char := rstripL (lstripL l)

/-- The public auth endpoints skipped by `should_have_authorizer` (line 17). -/
def authPaths : List (List Char) :=
  [cs "/auth/login", cs "/auth/signup", cs "/auth/register",
   cs "/auth/refresh", cs "/auth/logout"]

/-- `should_have_authorizer` of `fix-authorizers.py` (lines 10-25). -/
def should_have_authorizer (rt : List Char) : Bool :=
  if containsSub (cs "HttpMethod.OPTIONS") rt || containsSub (cs "OPTIONS") rt then false
  else if authPaths.any (fun p => containsSub p rt) then false
  else if (cs "//").isPrefixOf (stripL rt) then false
  else true

/-- Python `l.rstrip().endswith(',')` seen as a predicate on the stripped list. -/
def endsWithComma (l : List Char) : Bool :=
  match l.getLast? with
  | some c => c = ','
  | none => false

/-- `add_authorizer` of `fix-authorizers.py` (lines 27-48), applied to the
three capture groups of `route_pattern` (`group(1)` = header up to the
integration word, `group(2)` = trailing `[\s,]*`, `group(3)` = `}`). -/
def add_authorizer (g1 g2 g3 : List Char) : List Char :=
  let full := g1 ++ g2 ++ g3
  if containsSub (cs "authorizer:") full then full
  else if !(should_have_authorizer full) then full
  else
    let pfx := if endsWithComma (rstripL g1) then g1 else rstripL g1 ++ [',']
    pfx ++ cs " authorizer: httpAuthorizer" ++ g2 ++ g3

end FixAuthorizers

namespace SpecModel

open Rewrite FixThemeLineByLine

/-- Modelled from the spec: a template is a sequence of literal pieces and
capture-group references (the engine's `template` mini-language; absent from
`src/`, where replacements are plain strings or f-strings). -/
inductive TemplatePiece where
  | lit : List Char → TemplatePiece
  | group : Nat → TemplatePiece

/-- Modelled from the spec: the `{matcherSource, templateSource, guardSource?}`
record passed to `constructRuleSet` (spec section 6); absent from `src/`. -/
structure RuleSrc where
  matcher : Pat
  template : List TemplatePiece
  guard : Look

/-- Modelled from the spec: `InvalidRuleError`, raised at RuleSet construction
when a matcher can match the empty string or a template references a capture
group the matcher does not define (spec section 7); absent from `src/`. -/
inductive InvalidRuleError where
  | emptyMatcher : Nat → InvalidRuleError
  | badGroupRef : Nat → Nat → InvalidRuleError

/-- A `Pat` can match the empty string exactly when one alternative makes the
whole core `pre ++ a ++ post` empty (boundary anchors and negative lookaheads
are zero-width and satisfiable). -/
def canMatchEmpty (p : Pat) : Bool :=
  p.alts.any (fun a => (p.pre ++ a ++ p.post).isEmpty)

/-- The number of capture groups a `Pat` defines: 1 when it has a genuine
alternation group, otherwise 0 (group 0 is always the whole match). -/
def numGroups (p : Pat) : Nat :=
  if p.alts = [[]] then 0 else 1

/-- First capture-group reference in the template not defined by the matcher. -/
def badRef (p : Pat) : List TemplatePiece → Option Nat
  | [] => none
  | TemplatePiece.lit _ :: rest => badRef p rest
  | TemplatePiece.group n :: rest => if numGroups p < n then some n else badRef p rest

/-- Modelled from the spec: validation of the rules, in order. -/
def validateRules (idx : Nat) : List RuleSrc → Option InvalidRuleError
  | [] => none
  | r :: rest =>
    if canMatchEmpty r.matcher then some (InvalidRuleError.emptyMatcher idx)
    else
      match badRef r.matcher r.template with
      | some n => some (InvalidRuleError.badGroupRef idx n)
      | none => validateRules (idx + 1) rest

/-- Modelled from the spec: `constructRuleSet` (spec section 6) — fails with
`InvalidRuleError` before any text is processed; a failing construction
returns no RuleSet value at all. -/
def constructRuleSet (rs : List RuleSrc) : Except InvalidRuleError (List RuleSrc) :=
  match validateRules 0 rs with
  | some e => Except.error e
  | none => Except.ok rs

/-- Modelled from the spec (claim C4's reading of section 4.1): per-rule
left-to-right scan over the line; at each match the guard ("the dark class is
not present") is evaluated against the *current* state of the whole line; a
guard-passing match is itself replaced by the match followed by a space and
the dark class, and scanning resumes past the inserted text. -/
def claim_apply_go (r : ThemePair) (t : List Char) (i : Nat) : Nat → List Char
  | 0 => t
  | fuel + 1 =>
    match patAt t i r.pat with
    | some len =>
      if containsSub r.dark t then claim_apply_go r t (i + len) fuel
      else
        let light := (t.drop i).take len
        let t' := t.take i ++ light ++ ' ' :: r.dark ++ t.drop (i + len)
        claim_apply_go r t' (i + len + 1 + r.dark.length) fuel
    | none =>
      match t.get? i with
      | some _ => claim_apply_go r t (i + 1) fuel
      | none => t

/-- Modelled from the spec: the result of applying one rule with the claimed
per-match semantics to a whole line. -/
def claim_apply_rule (r : ThemePair) (t : List Char) : List Char :=
  claim_apply_go r t 0 ((t.length + 1) * (r.dark.length + 2))

/-- Modelled from the spec: the number of matches actually replaced by
`fix_line` on this line — `fix_line` instrumented to count its replacements
instead of only flagging them. -/
def replaced_in_line (pairs : List ThemePair) (line : List Char) : Nat :=
  (pairs.foldl (fun st r =>
    match findMatch r.pat st.1 with
    | none => st
    | some m =>
      if containsSub r.dark st.1 then st
      else
        let light := (st.1.drop m.1).take m.2
        (replaceFirstSub light (light ++ ' ' :: r.dark) st.1, st.2 + 1)) (line, 0)).2

end SpecModel

namespace Rewrite

theorem containsSub_iff {pat l : List Char} : containsSub pat l = true ↔ pat <:+: l := by
  induction l with
  | nil => simp [containsSub, List.isEmpty_iff, List.infix_nil]
  | cons c t ih =>
    simp only [containsSub, Bool.or_eq_true, List.infix_cons_iff,
      List.isPrefixOf_iff_prefix, ih]

theorem containsSub_sandwich (x pat y : List Char) :
    containsSub pat (x ++ pat ++ y) = true :=
  containsSub_iff.2 (List.infix_append x pat y)

theorem altLenAt_matched {t : List Char} {i : Nat} {p : Pat} {len : Nat} :
    ∀ {alts : List (List Char)}, altLenAt t i p alts = some len →
      ∃ a, (p.pre ++ a ++ p.post) <+: t.drop i ∧ len = (p.pre ++ a ++ p.post).length := by
  intro alts
  induction alts with
  | nil => intro h; simp [altLenAt] at h
  | cons a rest ih =>
    intro h
    rw [altLenAt] at h
    split at h
    · rename_i hcond
      simp only [Bool.and_eq_true] at hcond
      exact ⟨a, List.isPrefixOf_iff_prefix.1 hcond.1.1, by
        cases h; rfl⟩
    · exact ih h

theorem patAt_matched {t : List Char} {i : Nat} {p : Pat} {len : Nat}
    (h : patAt t i p = some len) :
    ∃ a, (p.pre ++ a ++ p.post) <+: t.drop i ∧ len = (p.pre ++ a ++ p.post).length := by
  rw [patAt] at h
  split at h
  · exact absurd h (by simp)
  · exact altLenAt_matched h

theorem findFrom_matched {p : Pat} {t : List Char} {j len : Nat} :
    ∀ {i fuel : Nat}, findFrom p t i fuel = some (j, len) → patAt t j p = some len := by
  intro i fuel
  induction fuel generalizing i with
  | zero => intro h; simp [findFrom] at h
  | succ fuel ih =>
    intro h
    rw [findFrom] at h
    rcases hp : patAt t i p with _ | len'
    · rw [hp] at h; exact ih h
    · rw [hp] at h
      cases h
      exact hp

/-- The text matched by `findMatch` is a substring of the line, and extracting
it with `take`/`drop` recovers exactly the matched alternative. -/
theorem findMatch_extract {p : Pat} {t : List Char} {j len : Nat}
    (h : findMatch p t = some (j, len)) :
    containsSub ((t.drop j).take len) t = true := by
  obtain ⟨a, hpre, hlen⟩ := patAt_matched (findFrom_matched h)
  have htake : (t.drop j).take len = p.pre ++ a ++ p.post := by
    rw [hlen, (List.prefix_iff_eq_take.1 hpre).symm]
  refine containsSub_iff.2 ?_
  rw [htake]
  exact hpre.isInfix.trans (List.drop_suffix j t).isInfix

theorem replaceFirstSub_decomp {pat l : List Char} (new : List Char)
    (h : containsSub pat l = true) :
    ∃ x y, l = x ++ pat ++ y ∧ replaceFirstSub pat new l = x ++ new ++ y := by
  induction l with
  | nil =>
    have : pat = [] := by simpa [containsSub, List.isEmpty_iff] using h
    subst this
    exact ⟨[], [], rfl, by simp [replaceFirstSub]⟩
  | cons c t ih =>
    rw [containsSub, Bool.or_eq_true] at h
    by_cases hp : pat.isPrefixOf (c :: t) = true
    · obtain ⟨y, hy⟩ := List.isPrefixOf_iff_prefix.1 hp
      refine ⟨[], y, by simpa using hy.symm, ?_⟩
      rw [replaceFirstSub, if_pos hp, ← hy, List.drop_left]
      simp
    · have hc : containsSub pat t = true := by
        rcases h with h | h
        · exact absurd h hp
        · exact h
      obtain ⟨x, y, hxy, hres⟩ := ih hc
      refine ⟨c :: x, y, by simp [hxy], ?_⟩
      rw [replaceFirstSub, if_neg hp, hres]
      simp

/-- After a replacement that inserts `mid`, the result contains `mid`. -/
theorem containsSub_replaceFirstSub {pat l : List Char} (pre mid post : List Char)
    (h : containsSub pat l = true) :
    containsSub mid (replaceFirstSub pat (pre ++ mid ++ post) l) = true := by
  obtain ⟨x, y, _, hres⟩ := replaceFirstSub_decomp (pre ++ mid ++ post) h
  rw [hres]
  have : x ++ (pre ++ mid ++ post) ++ y = (x ++ pre) ++ mid ++ (post ++ y) := by
    simp [List.append_assoc]
  rw [this]
  exact containsSub_sandwich _ _ _

end Rewrite

namespace FixThemeLineByLine

open Rewrite

theorem fix_line_step_none {r : ThemePair} {l : List Char} {b : Bool}
    (h : findMatch r.pat l = none) : fix_line_step (l, b) r = (l, b) := by
  simp [fix_line_step, h]

theorem fix_line_step_guard {r : ThemePair} {l : List Char} {b : Bool} {m : Nat × Nat}
    (h : findMatch r.pat l = some m) (hg : containsSub r.dark l = true) :
    fix_line_step (l, b) r = (l, b) := by
  simp [fix_line_step, h, hg]

theorem fix_line_step_replace {r : ThemePair} {l : List Char} {b : Bool} {j len : Nat}
    (h : findMatch r.pat l = some (j, len)) (hg : containsSub r.dark l = false) :
    fix_line_step (l, b) r =
      (replaceFirstSub ((l.drop j).take len)
        (((l.drop j).take len) ++ ' ' :: r.dark) l, true) := by
  simp [fix_line_step, h, hg]

theorem fix_line_singleton (r : ThemePair) (l : List Char) :
    fix_line [r] l = fix_line_step (l, false) r := rfl

/-- After a genuine replacement by `fix_line_step`, the rule's dark class is a
substring of the resulting line, so the line-wide guard blocks the rule on any
later pass. -/
theorem dark_present_after_replace {r : ThemePair} {l : List Char} {j len : Nat}
    (h : findMatch r.pat l = some (j, len)) :
    containsSub r.dark
      (replaceFirstSub ((l.drop j).take len)
        (((l.drop j).take len) ++ ' ' :: r.dark) l) = true := by
  have hocc : containsSub ((l.drop j).take len) l = true := findMatch_extract h
  have h2 := containsSub_replaceFirstSub (((l.drop j).take len) ++ [' ']) r.dark [] hocc
  have heq : ((l.drop j).take len) ++ [' '] ++ r.dark ++ [] =
      ((l.drop j).take len) ++ ' ' :: r.dark := by simp
  rw [heq] at h2
  exact h2

end FixThemeLineByLine

namespace Rewrite

theorem occCount_append (pat a b : List Char) :
    occCount pat (a ++ b) = occIn pat a b + occCount pat b := by
  induction a with
  | nil => simp [occIn]
  | cons c t ih => simp [occCount, occIn, ih, Nat.add_assoc]

theorem containsSub_mono {pat a l : List Char} (h : containsSub pat a = true)
    (hal : a <:+: l) : containsSub pat l = true :=
  containsSub_iff.2 ((containsSub_iff.1 h).trans hal)

/-- If the first character of `pat` does not occur in `a`, no occurrence of
`pat` in `a ++ b` starts inside `a`. -/
theorem occIn_eq_zero_of_head_notin {h : Char} {rest : List Char} (a b : List Char)
    (hpat : h ∉ a) : occIn (h :: rest) a b = 0 := by
  induction a with
  | nil => rfl
  | cons c t ih =>
    rw [occIn]
    have hne : (h :: rest).isPrefixOf (c :: (t ++ b)) = false := by
      rcases hp : (h :: rest).isPrefixOf (c :: (t ++ b)) with _ | _
      · rfl
      · obtain ⟨r, hr⟩ := List.isPrefixOf_iff_prefix.1 hp
        have hhc : h = c := by
          have := congrArg (fun l => l.head?) hr
          simpa using this
        exact absurd (hhc ▸ List.mem_cons_self h t) hpat
    rw [hne]
    simpa using ih (fun hm => hpat (List.mem_cons_of_mem c hm))

theorem prefix_split_long {pat x b : List Char} (h : pat.isPrefixOf (x ++ b) = true)
    (hl : pat.length ≤ x.length) : pat <+: x := by
  have h' := List.isPrefixOf_iff_prefix.1 h
  rcases List.prefix_or_prefix_of_prefix h' (List.prefix_append x b) with hp | hp
  · exact hp
  · have : x = pat := hp.eq_of_length (Nat.le_antisymm hp.length_le hl)
    exact this ▸ List.prefix_rfl

theorem prefix_split_short {pat x b : List Char} (h : pat.isPrefixOf (x ++ b) = true)
    (hl : x.length < pat.length) :
    x <+: pat ∧ (pat.drop x.length).isPrefixOf b = true := by
  have h' := List.isPrefixOf_iff_prefix.1 h
  rcases List.prefix_or_prefix_of_prefix h' (List.prefix_append x b) with hp | hp
  · exact absurd hp.length_le (by omega)
  · refine ⟨hp, ?_⟩
    obtain ⟨r, hr⟩ := hp
    have hdrop : pat.drop x.length = r := by
      rw [← hr, List.drop_left]
    obtain ⟨t, ht⟩ := h'
    rw [← hr, List.append_assoc] at ht
    have hrt : r ++ t = b := List.append_cancel_left ht
    rw [hdrop]
    exact List.isPrefixOf_iff_prefix.2 ⟨t, hrt⟩

/-- If no character of `pat` can be the first character of `b`, then a prefix
test of `pat` against `x ++ b` never uses `b`. -/
theorem isPrefixOf_append_eq (pat x b : List Char)
    (hb : ∀ c ∈ pat, b.head? ≠ some c) :
    pat.isPrefixOf (x ++ b) = pat.isPrefixOf x := by
  rcases hx : pat.isPrefixOf x with _ | _
  · rcases hxb : pat.isPrefixOf (x ++ b) with _ | _
    · rfl
    · rcases Nat.lt_or_ge x.length pat.length with hl | hl
      · obtain ⟨hxp, hdrop⟩ := prefix_split_short hxb hl
        rcases hd : pat.drop x.length with _ | ⟨d, ds⟩
        · have := congrArg List.length hd
          simp at this
          omega
        · have hdb : b.head? = some d := by
            obtain ⟨r, hr⟩ := List.isPrefixOf_iff_prefix.1 hdrop
            rw [hd] at hr
            have := congrArg (fun l => l.head?) hr
            simpa using this.symm
          have hdmem : d ∈ pat := by
            have : d ∈ pat.drop x.length := by
              rw [hd]; exact List.mem_cons_self d ds
            exact List.mem_of_mem_drop this
          exact absurd hdb (hb d hdmem)
      · have := List.isPrefixOf_iff_prefix.2 (prefix_split_long hxb hl)
        rw [hx] at this
        exact this.symm
  · have := List.isPrefixOf_iff_prefix.2
      ((List.isPrefixOf_iff_prefix.1 hx).trans (List.prefix_append x b))
    rw [this]

/-- Under the same head condition, occurrences of `pat` starting inside `a`
in `a ++ b` are exactly the occurrences of `pat` inside `a` alone. -/
theorem occIn_no_spill (pat a b : List Char)
    (hb : ∀ c ∈ pat, b.head? ≠ some c) :
    occIn pat a b = occIn pat a [] := by
  induction a with
  | nil => rfl
  | cons c t ih =>
    rw [occIn, occIn, ih]
    have h1 : (c :: (t ++ b)) = (c :: t) ++ b := rfl
    have h2 : (c :: (t ++ ([] : List Char))) = (c :: t) ++ ([] : List Char) := rfl
    rw [h1, h2, isPrefixOf_append_eq pat (c :: t) b hb,
      isPrefixOf_append_eq pat (c :: t) [] (by simp)]

theorem occIn_nil_eq_zero {pat a : List Char} (h : containsSub pat a = false) :
    occIn pat a [] = 0 := by
  induction a with
  | nil => rfl
  | cons c t ih =>
    rw [containsSub, Bool.or_eq_false_iff] at h
    rw [occIn]
    have : (c :: (t ++ ([] : List Char))) = c :: t := by simp
    rw [this, h.1]
    simpa using ih h.2

theorem occCount_eq_zero_iff {pat l : List Char} :
    occCount pat l = 0 ↔ containsSub pat l = false := by
  induction l with
  | nil =>
    rcases he : pat.isEmpty with _ | _
    · simp [occCount, containsSub, he]
    · simp [occCount, containsSub, he]
  | cons c t ih =>
    rw [occCount, containsSub]
    rcases hp : pat.isPrefixOf (c :: t) with _ | _
    · simpa using ih
    · simp

/-- An infix of `a ++ [c]` not containing `c` is an infix of `a`. -/
theorem infix_concat_last {pat a : List Char} {c : Char}
    (h : pat <:+: a ++ [c]) (hc : c ∉ pat) : pat <:+: a := by
  obtain ⟨x, y, hxy⟩ := h
  rcases List.eq_nil_or_concat y with rfl | ⟨y', d, rfl⟩
  · rcases List.eq_nil_or_concat pat with rfl | ⟨p', plast, rfl⟩
    · exact List.nil_infix
    · simp only [List.concat_eq_append, List.append_nil, ← List.append_assoc] at hxy
      obtain ⟨_, hlast⟩ := List.append_inj' hxy (by simp)
      have hpc : plast = c := by simpa using hlast
      refine absurd ?_ hc
      rw [List.concat_eq_append, ← hpc]
      exact List.mem_append_right p' (List.mem_singleton_self plast)
  · simp only [List.concat_eq_append, ← List.append_assoc] at hxy
    obtain ⟨hinit, _⟩ := List.append_inj' hxy (by simp)
    exact ⟨x, y', by simpa using hinit⟩

end Rewrite

section Claims

open Rewrite FixThemeLineByLine UpdateDarkMode FixMultilineInputs FixAuthorizers SpecModel

/-- Claim C1 (amended): applying a *single-rule* RuleSet twice is idempotent
for every rule and every input line — after the first application the rule's
dark class is a substring of the line (or the rule never matched), so the
line-wide guard `dark_class not in line` blocks every further change.  For
multi-rule RuleSets this fails (see the counterexample): a later rule's
inserted dark class can create a fresh match for an earlier rule. -/
theorem C1_single_rule_idempotent (r : ThemePair) (l : List Char) :
    fix_line [r] (fix_line [r] l).1 = ((fix_line [r] l).1, false) := by
  rw [fix_line_singleton r l]
  rcases hfm : findMatch r.pat l with _ | ⟨j, len⟩
  · rw [fix_line_step_none hfm]
    rw [fix_line_singleton, fix_line_step_none hfm]
  · by_cases hg : containsSub r.dark l = true
    · rw [fix_line_step_guard hfm hg]
      rw [fix_line_singleton, fix_line_step_guard hfm hg]
    · have hg' : containsSub r.dark l = false := by
        simpa using hg
      rw [fix_line_step_replace hfm hg']
      have hcd := dark_present_after_replace hfm
      rw [fix_line_singleton]
      rcases hfm2 : findMatch r.pat
          (replaceFirstSub ((l.drop j).take len)
            (((l.drop j).take len) ++ ' ' :: r.dark) l) with _ | m2
      · rw [fix_line_step_none hfm2]
      · rw [fix_line_step_guard hfm2 hcd]

/-- Claim C1 is false as stated: on the line `divide-gray-200-gray-200` the
full `THEME_PAIRS` RuleSet is *not* idempotent — the first pass inserts
`dark:divide-surface-border`, whose tail together with the following text
forms a fresh `border-gray-200` match for an earlier rule, so the second
application changes the line again. -/
theorem C1_counterexample :
    ((fix_line THEME_PAIRS
        (fix_line THEME_PAIRS (cs "divide-gray-200-gray-200")).1).2 = true)
    ∧ (fix_line THEME_PAIRS
        (fix_line THEME_PAIRS (cs "divide-gray-200-gray-200")).1).1
      ≠ (fix_line THEME_PAIRS (cs "divide-gray-200-gray-200")).1 := by
  constructor
  · rfl
  · decide

/-- Claim C2: on the input line `class="bg-white"` the word-boundary
`bg-white` rule (guard: `dark:bg-surface-primary` not on the line, template
appending the dark class) produces `class="bg-white dark:bg-surface-primary"`
with exactly one change, and re-applying it to the output changes nothing —
shown both for the `fix_line` form of the rule (`THEME_PAIRS[0]`) and for the
`re.subn` form (`REPLACEMENTS[0]`, whose count is exact). -/
theorem C2_end_to_end :
    (fix_line [⟨mkLit "bg-white", cs "dark:bg-surface-primary"⟩] (cs "class=\"bg-white\"")
      = (cs "class=\"bg-white dark:bg-surface-primary\"", true))
    ∧ (fix_line [⟨mkLit "bg-white", cs "dark:bg-surface-primary"⟩]
        (cs "class=\"bg-white dark:bg-surface-primary\"")
      = (cs "class=\"bg-white dark:bg-surface-primary\"", false))
    ∧ (subn (mkLitLA "bg-white" " dark:") (cs "bg-white dark:bg-surface-primary")
        (cs "class=\"bg-white\"")
      = (cs "class=\"bg-white dark:bg-surface-primary\"", 1))
    ∧ (subn (mkLitLA "bg-white" " dark:") (cs "bg-white dark:bg-surface-primary")
        (cs "class=\"bg-white dark:bg-surface-primary\"")
      = (cs "class=\"bg-white dark:bg-surface-primary\"", 0)) :=
  ⟨rfl, rfl, rfl, rfl⟩

/-- Claim C4 is false for `fix_line`: on `Xbg-whiteY bg-white` the only
word-boundary match of `bg-white` is the second occurrence, but
`line.replace(light_class, ..., 1)` rewrites the first *plain-substring*
occurrence (inside `Xbg-whiteY`), so the guard-passing match itself is never
replaced — the code's output differs from the claimed per-match semantics. -/
theorem C4_counterexample :
    (fix_line [⟨mkLit "bg-white", cs "dark:bg-surface-primary"⟩]
        (cs "Xbg-whiteY bg-white")).1
      ≠ claim_apply_rule ⟨mkLit "bg-white", cs "dark:bg-surface-primary"⟩
        (cs "Xbg-whiteY bg-white") := by
  decide

/-- Claim C4 (amended): the `re.sub`-based `update_file` scripts do replace
every non-overlapping guard-passing match left-to-right without rescanning
inserted text (both `bg-white` occurrences below, count 2); `fix_line`,
however, replaces at most one occurrence per rule per pass — the first
plain-substring occurrence of the matched text, which may precede the actual
match — under a line-wide guard. -/
theorem C4_amended :
    (subn (mkLitLA "bg-white" " dark:") (cs "bg-white dark:bg-surface-primary")
        (cs "bg-white p bg-white")
      = (cs "bg-white dark:bg-surface-primary p bg-white dark:bg-surface-primary", 2))
    ∧ (fix_line [⟨mkLit "bg-white", cs "dark:bg-surface-primary"⟩]
        (cs "Xbg-whiteY bg-white")
      = (cs "Xbg-white dark:bg-surface-primaryY bg-white", true)) :=
  ⟨rfl, rfl⟩

/-- Claim C5: the `fix_file_content` matcher for `<input ... className="...">`
elements, whose match here must span two lines, finds exactly one match on
the whole file body and zero matches on every line when the same text is
split into (terminator-keeping) lines. -/
theorem C5_scope :
    countTagMatches (cs "input") (cs "<input\n  className=\"border rounded\" />") = 1
    ∧ (splitKeepends (cs "<input\n  className=\"border rounded\" />")).map
        (fun l => countTagMatches (cs "input") l) = [0, 0] :=
  ⟨rfl, rfl⟩

/-- Claim C6: rules apply in sequence, later rules seeing earlier rules'
output: with a second rule whose matcher (`surface-primary`) only matches
text inserted by the first rule's replacement, swapping the order changes
the result. -/
theorem C6_order_sensitivity :
    fix_line [⟨mkLit "bg-white", cs "dark:bg-surface-primary"⟩,
              ⟨mkLit "surface-primary", cs "zzz"⟩] (cs "bg-white")
      ≠ fix_line [⟨mkLit "surface-primary", cs "zzz"⟩,
                  ⟨mkLit "bg-white", cs "dark:bg-surface-primary"⟩] (cs "bg-white") := by
  decide

/-- The replacement count of the `re.subn`/`re.sub` scan agrees with the
match count of the separate `re.findall` scan at every start index. -/
theorem subnGo_count_eq_findallGo (p : Pat) (r t : List Char) :
    ∀ (fuel i : Nat), (subnGo p r t i fuel).2 = findallGo p t i fuel := by
  intro fuel
  induction fuel with
  | zero => intro i; rfl
  | succ fuel ih =>
    intro i
    rw [subnGo, findallGo]
    cases hp : patAt t i p with
    | some len => simp [ih]
    | none =>
      cases hg : t.get? i with
      | some c => simp [ih]
      | none => simp

/-- Claim C7 (amended): for the `re.sub`-based `update_file` scripts the
reported count is exact — the number of replacements performed by the
substitution scan equals the number of matches counted by the independent
`re.findall` scan on the same text (this is precisely how
`update_dark_mode.update_file` computes its count); `fix_file`, by contrast,
counts changed *lines*, not replaced matches (see the counterexample). -/
theorem C7_amended (p : Pat) (r t : List Char) :
    (subn p r t).2 = findallCount p t :=
  subnGo_count_eq_findallGo p r t (t.length + 1) 0

/-- Claim C7 is false for `fix_file`: on a single line containing both
`bg-white` and `text-gray-900`, two matches are replaced but `fix_file`
reports `len(line_changes) = 1` — it counts changed lines, not replaced
matches. -/
theorem C7_counterexample :
    (fix_file_lines THEME_PAIRS [cs "bg-white text-gray-900"]).2
      ≠ replaced_in_line THEME_PAIRS (cs "bg-white text-gray-900")
    ∧ (fix_file_lines THEME_PAIRS [cs "bg-white text-gray-900"]).2 = 1
    ∧ replaced_in_line THEME_PAIRS (cs "bg-white text-gray-900") = 2 := by
  refine ⟨?_, rfl, rfl⟩
  decide

/-- Claim C8: the text-transformation step is a total function of the input
text (it can never raise), and an input on which no rule matches — e.g. any
malformed construct — is a zero-count success: the line is returned
unchanged with no change flagged. -/
theorem C8_no_match_zero_success (pairs : List ThemePair) (l : List Char)
    (h : ∀ r ∈ pairs, findMatch r.pat l = none) :
    fix_line pairs l = (l, false) := by
  have aux : ∀ (ps : List ThemePair) (b : Bool),
      (∀ r ∈ ps, findMatch r.pat l = none) → ps.foldl fix_line_step (l, b) = (l, b) := by
    intro ps
    induction ps with
    | nil => intro b _; rfl
    | cons r rest ih =>
      intro b hall
      rw [List.foldl_cons, fix_line_step_none (hall r (List.mem_cons_self r rest))]
      exact ih b (fun q hq => hall q (List.mem_cons_of_mem r hq))
  exact aux pairs false h

/-- Witness for C8: the malformed line `<input className="border` (unterminated
quoted region) matches no `THEME_PAIRS` rule and is a zero-count success. -/
theorem C8_witness :
    (∀ r ∈ THEME_PAIRS, findMatch r.pat (cs "<input className=\"border") = none)
    ∧ fix_line THEME_PAIRS (cs "<input className=\"border")
      = (cs "<input className=\"border", false) := by
  have h : ∀ r ∈ THEME_PAIRS, findMatch r.pat (cs "<input className=\"border") = none := by
    decide
  exact ⟨h, C8_no_match_zero_success THEME_PAIRS _ h⟩

/-- Claim C9: per-file failure containment in `update_file` — a read failure
returns count 0 without writing; a write failure is caught and also returns
count 0 without (atomically) writing; a file whose content matches nothing
gives the same `(0, no-write)` outcome; and the enumeration loop processes
each file independently, so one file's outcome never aborts the rest. -/
theorem C9_per_file_containment :
    (∀ (e : IOErr) (w : Except IOErr Unit), update_file (Except.error e) w = (0, false))
    ∧ (∀ (c : List Char) (e : IOErr),
        update_file (Except.ok c) (Except.error e) = (0, false))
    ∧ (∀ (c : List Char) (w : Except IOErr Unit),
        update_content REPLACEMENTS c = (c, 0) →
        update_file (Except.ok c) w = (0, false))
    ∧ (∀ (f : Except IOErr (List Char) × Except IOErr Unit)
        (fs : List (Except IOErr (List Char) × Except IOErr Unit)),
        processFiles (f :: fs) = update_file f.1 f.2 :: processFiles fs) := by
  refine ⟨fun e w => rfl, ?_, ?_, fun f fs => rfl⟩
  · intro c e
    show (if (update_content REPLACEMENTS c).1 ≠ c then ((0 : Nat), false)
          else ((0 : Nat), false)) = ((0 : Nat), false)
    exact ite_self _
  · intro c w h
    show (if (update_content REPLACEMENTS c).1 ≠ c then
            (match w with
             | Except.ok _ => ((update_content REPLACEMENTS c).2, true)
             | Except.error _ => ((0 : Nat), false))
          else ((0 : Nat), false)) = ((0 : Nat), false)
    rw [h]
    simp

/-- Witness for C9: a concrete error, a concrete write failure, and a
concrete zero-match content all yield `(0, no-write)`. -/
theorem C9_witness :
    update_file (Except.error ⟨7⟩) (Except.ok ()) = (0, false)
    ∧ update_file (Except.ok (cs "nothing")) (Except.error ⟨7⟩) = (0, false)
    ∧ update_file (Except.ok (cs "nothing")) (Except.ok ()) = (0, false)
    ∧ processFiles [(Except.error ⟨7⟩, Except.ok ())]
      = [update_file (Except.error ⟨7⟩) (Except.ok ())] :=
  ⟨C9_per_file_containment.1 ⟨7⟩ (Except.ok ()),
   C9_per_file_containment.2.1 (cs "nothing") ⟨7⟩,
   C9_per_file_containment.2.2.1 (cs "nothing") (Except.ok ()) rfl,
   C9_per_file_containment.2.2.2 (Except.error ⟨7⟩, Except.ok ()) []⟩

/-- Any rule list containing an empty-matching matcher or a bad capture-group
reference fails validation at every starting index. -/
theorem validateRules_isSome {rs : List RuleSrc}
    (h : ∃ r ∈ rs, canMatchEmpty r.matcher = true
        ∨ (badRef r.matcher r.template).isSome = true) :
    ∀ idx, (validateRules idx rs).isSome = true := by
  induction rs with
  | nil => exact absurd h (by simp)
  | cons r rest ih =>
    intro idx
    rw [validateRules]
    by_cases he : canMatchEmpty r.matcher = true
    · simp [he]
    · rw [if_neg he]
      cases hb : badRef r.matcher r.template with
      | some n => simp
      | none =>
        rcases h with ⟨q, hq, hbad⟩
        rcases List.mem_cons.1 hq with rfl | hq'
        · rcases hbad with hbad | hbad
          · exact absurd hbad he
          · rw [hb] at hbad
            exact absurd hbad (by simp)
        · exact ih ⟨q, hq', hbad⟩ (idx + 1)

/-- Claim C3: constructing a RuleSet containing a matcher that can match the
empty string, or a template referencing a capture group the matcher does not
define, fails with `InvalidRuleError` — the construction returns an error and
no RuleSet value, before any text is processed. -/
theorem C3_construction_rejects (rs : List RuleSrc)
    (h : ∃ r ∈ rs, canMatchEmpty r.matcher = true
        ∨ (badRef r.matcher r.template).isSome = true) :
    ∃ e, constructRuleSet rs = Except.error e := by
  have hs := validateRules_isSome h 0
  rcases hv : validateRules 0 rs with _ | e
  · rw [hv] at hs; exact absurd hs (by simp)
  · exact ⟨e, by rw [constructRuleSet, hv]⟩

/-- Witness for C3: a one-rule set whose matcher matches the empty string is
rejected. -/
theorem C3_witness :
    ∃ e, constructRuleSet [⟨⟨[], [[]], [], true, true, Look.non⟩, [], Look.non⟩]
      = Except.error e :=
  C3_construction_rejects _ ⟨_, List.mem_singleton.2 rfl, Or.inl rfl⟩

/-- The prefix adjusted by `prefix.rstrip()` is a prefix of the original. -/
theorem rstripL_isPrefix (l : List Char) : rstripL l <+: l := by
  rw [rstripL]
  refine List.reverse_suffix.1 ?_
  have h := @List.dropWhile_suffix Char l.reverse isSpaceChar
  simpa using h

/-- Claim C10: for route texts decomposed by `route_pattern` into groups
`g1` (header through the integration word), `g2` (trailing whitespace or
commas) and `g3` (the closing brace), `add_authorizer` returns the text
unchanged when it already contains `authorizer:` or when
`should_have_authorizer` rejects it (OPTIONS routes, public auth paths,
commented-out routes); in every other case the result contains exactly one
`authorizer:` entry — so the patch never produces a route with two
authorizer entries (count at most 1 whenever the input had none). -/
theorem C10_authorizer_invariant (g1 g2 g3 : List Char)
    (h2 : ∀ c ∈ g2, isSpaceChar c = true ∨ c = ',')
    (h3 : g3 = cs "\x7d") :
    (containsSub (cs "authorizer:") (g1 ++ g2 ++ g3) = true →
      add_authorizer g1 g2 g3 = g1 ++ g2 ++ g3)
    ∧ (should_have_authorizer (g1 ++ g2 ++ g3) = false →
      add_authorizer g1 g2 g3 = g1 ++ g2 ++ g3)
    ∧ (containsSub (cs "authorizer:") (g1 ++ g2 ++ g3) = false →
      should_have_authorizer (g1 ++ g2 ++ g3) = true →
      occCount (cs "authorizer:") (add_authorizer g1 g2 g3) = 1)
    ∧ (occCount (cs "authorizer:") (g1 ++ g2 ++ g3) = 0 →
      occCount (cs "authorizer:") (add_authorizer g1 g2 g3) ≤ 1) := by
  have part1 : containsSub (cs "authorizer:") (g1 ++ g2 ++ g3) = true →
      add_authorizer g1 g2 g3 = g1 ++ g2 ++ g3 := by
    intro h
    rw [List.append_assoc] at h
    simp [add_authorizer, h]
  have part2 : should_have_authorizer (g1 ++ g2 ++ g3) = false →
      add_authorizer g1 g2 g3 = g1 ++ g2 ++ g3 := by
    intro h
    rw [List.append_assoc] at h
    simp [add_authorizer, h]
  have part3 : containsSub (cs "authorizer:") (g1 ++ g2 ++ g3) = false →
      should_have_authorizer (g1 ++ g2 ++ g3) = true →
      occCount (cs "authorizer:") (add_authorizer g1 g2 g3) = 1 := by
    intro hco hsh
    rw [List.append_assoc] at hco hsh
    have hchars : ∀ c ∈ cs "authorizer:",
        isSpaceChar c = false ∧ c ≠ ' ' ∧ c ≠ ',' ∧ c ≠ '\x7d' := by decide
    have hadd : add_authorizer g1 g2 g3 =
        (if endsWithComma (rstripL g1) then g1 else rstripL g1 ++ [','])
          ++ cs " authorizer: httpAuthorizer" ++ g2 ++ g3 := by
      simp [add_authorizer, hco, hsh]
    have hg1 : containsSub (cs "authorizer:") g1 = false := by
      rcases hq : containsSub (cs "authorizer:") g1 with _ | _
      · rfl
      · have hmono : containsSub (cs "authorizer:") (g1 ++ (g2 ++ g3)) = true :=
          containsSub_mono hq (List.prefix_append g1 (g2 ++ g3)).isInfix
        simp [hco] at hmono
    have hpfx : containsSub (cs "authorizer:")
        (if endsWithComma (rstripL g1) then g1 else rstripL g1 ++ [',']) = false := by
      rcases hec : endsWithComma (rstripL g1) with _ | _
      · rw [if_neg (by simp)]
        rcases hq : containsSub (cs "authorizer:") (rstripL g1 ++ [',']) with _ | _
        · rfl
        · have hnf := infix_concat_last (containsSub_iff.1 hq) (by decide)
          have hcg : containsSub (cs "authorizer:") g1 = true :=
            containsSub_mono (containsSub_iff.2 hnf) (rstripL_isPrefix g1).isInfix
          simp [hg1] at hcg
      · simpa using hg1
    rw [hadd]
    have hassoc : (if endsWithComma (rstripL g1) then g1 else rstripL g1 ++ [','])
        ++ cs " authorizer: httpAuthorizer" ++ g2 ++ g3
        = (if endsWithComma (rstripL g1) then g1 else rstripL g1 ++ [','])
          ++ (cs " authorizer: httpAuthorizer" ++ (g2 ++ g3)) := by
      simp [List.append_assoc]
    rw [hassoc, occCount_append, occCount_append, occCount_append]
    have e1 : occIn (cs "authorizer:")
        (if endsWithComma (rstripL g1) then g1 else rstripL g1 ++ [','])
        (cs " authorizer: httpAuthorizer" ++ (g2 ++ g3)) = 0 := by
      rw [occIn_no_spill]
      · exact occIn_nil_eq_zero hpfx
      · intro c hc heq
        have hh : (cs " authorizer: httpAuthorizer" ++ (g2 ++ g3)).head? = some ' ' := rfl
        rw [hh] at heq
        exact absurd (Option.some.inj heq).symm (hchars c hc).2.1
    have e2 : occIn (cs "authorizer:") (cs " authorizer: httpAuthorizer") (g2 ++ g3) = 1 := by
      rw [occIn_no_spill]
      · decide
      · intro c hc heq
        rcases g2 with _ | ⟨d, t⟩
        · rw [h3] at heq
          have hh : (([] : List Char) ++ cs "\x7d").head? = some '\x7d' := rfl
          rw [hh] at heq
          exact absurd (Option.some.inj heq).symm (hchars c hc).2.2.2
        · have hd : ((d :: t) ++ g3).head? = some d := rfl
          rw [hd] at heq
          have hcd : c = d := (Option.some.inj heq).symm
          rcases h2 d (List.mem_cons_self d t) with hws | hcm
          · have hcf := (hchars c hc).1
            rw [hcd, hws] at hcf
            exact Bool.noConfusion hcf
          · exact absurd (hcd.trans hcm) (hchars c hc).2.2.1
    have e3 : occIn (cs "authorizer:") g2 g3 = 0 := by
      have hna : 'a' ∉ g2 := by
        intro hmem
        rcases h2 'a' hmem with hws | hcm
        · exact absurd hws (by decide)
        · exact absurd hcm (by decide)
      show occIn ('a' :: cs "uthorizer:") g2 g3 = 0
      exact occIn_eq_zero_of_head_notin g2 g3 hna
    have e4 : occCount (cs "authorizer:") g3 = 0 := by
      rw [h3]
      decide
    rw [e1, e2, e3, e4]
  refine ⟨part1, part2, part3, ?_⟩
  intro h0
  have hco := occCount_eq_zero_iff.1 h0
  rcases hsh : should_have_authorizer (g1 ++ g2 ++ g3) with _ | _
  · rw [part2 hsh, h0]
    exact Nat.zero_le 1
  · rw [part3 hco hsh]

/-- Witness for C10: a concrete authenticated route gains exactly one
`authorizer:` entry. -/
theorem C10_witness :
    occCount (cs "authorizer:")
      (add_authorizer (cs "httpApi.addRoutes(\x7b path: P, integration: fn")
        (cs " ,") (cs "\x7d")) = 1 :=
  (C10_authorizer_invariant (cs "httpApi.addRoutes(\x7b path: P, integration: fn")
    (cs " ,") (cs "\x7d") (by decide) rfl).2.2.1 (by decide) (by decide)

end Claims
